import Mathlib

/-!
Shallow embedding of the TuneTrainer core (`src/tunetrainer_app.py`) and
verification of the frozen claims about it.

The two core functions are:
* `detect_pitch`  — the reduction the Python function performs on the per-frame
  f0 series produced by `librosa.yin` (NaN filtering, emptiness test, median);
  `detect_pitch_call` additionally models the call including the possibility
  that the library raises, which the Python code does not catch.
* `hz_to_note`    — frequency-to-note mapping over exact real arithmetic.

Machine floats are idealised as exact reals (for `hz_to_note`) and exact
rationals (for the pitch-series data, where no transcendental function is
involved).  Python's `round` on a float uses round-half-to-even (banker's
rounding), embedded here as `pyRound`.  Python's `%` and `//` on integers are
floor mod / floor division, which for a positive modulus coincide with Lean's
`Int.emod` / `Int.ediv`.
-/

namespace TuneTrainer

/-! ## Outcome of a Python call: either an uncaught exception or a value -/

inductive PyResult (α : Type) where
  | raised (msg : String)
  | returned (val : α)
deriving DecidableEq

/-! ## detect_pitch -/

/-- `np.median`: sort ascending; middle element for odd length, mean of the
two middle elements for even length.  (Insertion sort is used as the
executable model of sorting.) -/
def np_median (l : List ℚ) : ℚ :=
  let s := l.insertionSort (· ≤ ·)
  if l.length % 2 = 1 then s.getD (l.length / 2) 0
  else (s.getD (l.length / 2 - 1) 0 + s.getD (l.length / 2) 0) / 2

/-- Body of `detect_pitch` after the `librosa.yin` call: the per-frame series
(`none` = NaN, an unvoiced frame) is filtered down to its defined entries
(`f0_series[~np.isnan(f0_series)]`); if none remain the result is `None`,
otherwise the median of the remaining entries. -/
def detect_pitch (f0_series : List (Option ℚ)) : Option ℚ :=
  let f0 := f0_series.filterMap id
  if f0.length = 0 then none
  else some (np_median f0)

/-- The full call `detect_pitch(audio, sr)`: the estimator `yin` (the external
`librosa.yin`, abstracted as a parameter) is applied to the buffer and sample
rate; the Python code wraps the call in no `try`/`except`, so an exception
raised by the library propagates uncaught, and a returned series goes through
the reduction above. -/
def detect_pitch_call (yin : List ℚ → ℕ → PyResult (List (Option ℚ)))
    (audio : List ℚ) (sr : ℕ) : PyResult (Option ℚ) :=
  match yin audio sr with
  | .raised m => .raised m
  | .returned s => .returned (detect_pitch s)

/-- A model of `librosa.yin` (default `center=True`, `pad_mode="constant"`,
`frame_length=2048`) on the empty buffer at `sr = 44100` with the source's
`fmin = C2`, `fmax = C7 ≈ 2093 Hz`: centering pads the signal with
`frame_length // 2 = 1024` zeros on each side, so the empty buffer becomes
exactly one all-zero frame and framing succeeds.  The cumulative mean
normalized difference of an all-zero frame is identically zero, so no trough
falls below the threshold and the global minimum — the first candidate lag,
`min_period = floor(sr / fmax) = floor(44100 / 2093) = 21` — is selected,
giving the defined (non-NaN) estimate `f0 = sr / min_period = 2100` Hz.  No
exception is raised and no NaN is produced; only the behaviour at the empty
buffer is used below. -/
def yin_on_empty : List ℚ → ℕ → PyResult (List (Option ℚ)) :=
  fun _ _ => .returned [some 2100]

/-- A concrete estimator returning a fixed series, used to instantiate
universally quantified theorems. -/
def yin_const : List ℚ → ℕ → PyResult (List (Option ℚ)) :=
  fun _ _ => .returned [some 3, none, some 1, some 2]

/-! ## hz_to_note -/

/-- Python 3 `round` on an (idealised, exact) real: nearest integer, ties
going to the even neighbour. -/
noncomputable def pyRound (x : ℝ) : ℤ :=
  if Int.fract x = 1 / 2 then (if ⌊x⌋ % 2 = 0 then ⌊x⌋ else ⌊x⌋ + 1)
  else round x

/-- `midi_num = 69 + 12 * math.log2(freq / 440.0)` -/
noncomputable def midi_num (freq : ℝ) : ℝ :=
  69 + 12 * Real.logb 2 (freq / 440.0)

/-- `nearest_midi = int(round(midi_num))` -/
noncomputable def nearest_midi (freq : ℝ) : ℤ :=
  pyRound (midi_num freq)

/-- `cents_off = (midi_num - nearest_midi) * 100` -/
noncomputable def cents_off (freq : ℝ) : ℝ :=
  (midi_num freq - nearest_midi freq) * 100

/-- The `note_names` list of the source: the 12 pitch-class names from "C"
up to "B" in sharp spelling, written here as the concatenation of its two
halves (the same list as the source's single literal). -/
def note_names : List String :=
  ["C", "C#", "D", "D#", "E", "F"] ++ ["F#", "G", "G#", "A", "A#", "B"]

/-- `note_name = note_names[nearest_midi % 12] + str((nearest_midi // 12) - 1)`;
Python's `%` / `//` on integers are `Int.emod` / `Int.ediv`, and the list
index is always in range (claim C9), so `getD`'s default is never taken. -/
noncomputable def note_name (freq : ℝ) : String :=
  note_names.getD (Int.toNat (Int.emod (nearest_midi freq) 12)) "" ++
    toString (Int.ediv (nearest_midi freq) 12 - 1)

/-- `target_freq = 440.0 * (2 ** ((nearest_midi - 69) / 12))`; the exponent is
Python float division of integers, i.e. exact real division here, and `**` is
real exponentiation. -/
noncomputable def target_freq (freq : ℝ) : ℝ :=
  440.0 * (2 : ℝ) ^ (((nearest_midi freq : ℝ) - 69) / 12)

/-- `hz_to_note(freq)`: `(None, None, None)` for `freq <= 0` (embedded as
`none`), otherwise the triple `(note_name, cents_off, target_freq)`. -/
noncomputable def hz_to_note (freq : ℝ) : Option (String × ℝ × ℝ) :=
  if freq ≤ 0 then none
  else some (note_name freq, cents_off freq, target_freq freq)

/-- Round half away from zero, following the spec's words: "reference behavior
rounds half away from zero, matching standard `round` semantics".  Used only
to compare the spec's stated rounding mode with the code's. -/
noncomputable def spec_round_half_away (x : ℝ) : ℤ :=
  if 0 ≤ x then ⌊x + 1 / 2⌋ else ⌈x - 1 / 2⌉

/-! ## Helper lemmas about `pyRound` -/

theorem pyRound_eq_of_lt (n : ℤ) (x : ℝ) (h1 : (n : ℝ) - 1 / 2 < x)
    (h2 : x < (n : ℝ) + 1 / 2) : pyRound x = n := by
  have hfr : Int.fract x ≠ 1 / 2 := by
    intro hf
    have hx : x = (⌊x⌋ : ℝ) + 1 / 2 := by
      have h := Int.floor_add_fract x
      rw [hf] at h
      linarith
    rw [hx] at h1 h2
    have hl : (n : ℝ) - 1 < (⌊x⌋ : ℝ) := by linarith
    have hr : (⌊x⌋ : ℝ) < (n : ℝ) := by linarith
    have hl' : n - 1 < ⌊x⌋ := by exact_mod_cast hl
    have hr' : ⌊x⌋ < n := by exact_mod_cast hr
    omega
  rw [pyRound, if_neg hfr, round_eq]
  rw [Int.floor_eq_iff]
  constructor
  · linarith
  · linarith

theorem pyRound_int_add_half (n : ℤ) :
    pyRound ((n : ℝ) + 1 / 2) = if n % 2 = 0 then n else n + 1 := by
  have hfr : Int.fract ((n : ℝ) + 1 / 2) = 1 / 2 := by
    rw [Int.fract_int_add]
    rw [Int.fract_eq_self.2 (by norm_num)]
  have hfl : ⌊(n : ℝ) + 1 / 2⌋ = n := by
    rw [Int.floor_int_add]
    norm_num
  rw [pyRound, if_pos hfr, hfl]

/-- At a tie, `pyRound` picks the even neighbour and is off by exactly 1/2. -/
theorem pyRound_fract_half (x : ℝ) (hf : Int.fract x = 1 / 2) :
    pyRound x % 2 = 0 ∧ |x - (pyRound x : ℝ)| = 1 / 2 := by
  have hx : x = (⌊x⌋ : ℝ) + 1 / 2 := by
    have h := Int.floor_add_fract x
    rw [hf] at h
    linarith
  rw [hx, pyRound_int_add_half]
  rcases (by omega : ⌊x⌋ % 2 = 0 ∨ ⌊x⌋ % 2 = 1) with h | h
  · rw [if_pos h]
    refine ⟨h, ?_⟩
    rw [abs_of_nonneg (by linarith)]
    ring
  · rw [if_neg (by omega)]
    refine ⟨by omega, ?_⟩
    push_cast
    rw [abs_of_nonpos (by linarith)]
    ring

theorem abs_sub_pyRound (x : ℝ) : |x - (pyRound x : ℝ)| ≤ 1 / 2 := by
  by_cases hf : Int.fract x = 1 / 2
  · exact le_of_eq (pyRound_fract_half x hf).2
  · rw [pyRound, if_neg hf]
    exact abs_sub_round x

theorem abs_sub_pyRound_lt (x : ℝ) (hf : Int.fract x ≠ 1 / 2) :
    |x - (pyRound x : ℝ)| < 1 / 2 := by
  rw [pyRound, if_neg hf, round_eq]
  have h1 : (⌊x + 1 / 2⌋ : ℝ) ≤ x + 1 / 2 := Int.floor_le _
  have h2 : x + 1 / 2 - 1 < (⌊x + 1 / 2⌋ : ℝ) := Int.sub_one_lt_floor _
  rcases lt_or_eq_of_le h1 with h1' | h1'
  · rw [abs_lt]
    constructor <;> linarith
  · exfalso
    apply hf
    have hx : x = ((⌊x + 1 / 2⌋ - 1 : ℤ) : ℝ) + 1 / 2 := by push_cast; linarith
    rw [hx, Int.fract_int_add, Int.fract_eq_self.2 (by norm_num)]

/-! ## Helper lemmas about `midi_num` and friends -/

theorem hz_to_note_pos (f : ℝ) (h : 0 < f) :
    hz_to_note f = some (note_name f, cents_off f, target_freq f) := by
  rw [hz_to_note, if_neg (not_le.2 h)]

theorem midi_num_rpow (x : ℝ) :
    midi_num (440 * (2 : ℝ) ^ x) = 69 + 12 * x := by
  rw [midi_num]
  have h440 : (440 : ℝ) ≠ 0 := by norm_num
  have : (440 : ℝ) * (2 : ℝ) ^ x / 440.0 = (2 : ℝ) ^ x := by
    rw [show (440.0 : ℝ) = 440 from by norm_num]
    field_simp
  rw [this, Real.logb_rpow (by norm_num) (by norm_num)]

theorem rpow_freq_pos (x : ℝ) : 0 < 440 * (2 : ℝ) ^ x := by positivity

theorem midi_num_lt_midi_num (a b : ℝ) (ha : 0 < a) (hab : a < b) :
    midi_num a < midi_num b := by
  rw [midi_num, midi_num]
  have hd : a / 440.0 < b / 440.0 := by
    rw [show (440.0 : ℝ) = 440 from by norm_num]
    linarith
  have h1 : Real.logb 2 (a / 440.0) < Real.logb 2 (b / 440.0) :=
    Real.logb_lt_logb (by norm_num) (by positivity) hd
  linarith

theorem midi_num_440 : midi_num 440 = 69 := by
  rw [midi_num]
  rw [show (440 : ℝ) / 440.0 = 1 from by norm_num, Real.logb_one]
  norm_num

theorem nearest_midi_440 : nearest_midi 440 = 69 := by
  rw [nearest_midi, midi_num_440]
  exact pyRound_eq_of_lt 69 69 (by norm_num) (by norm_num)

theorem cents_off_440 : cents_off 440 = 0 := by
  rw [cents_off, midi_num_440, nearest_midi_440]
  norm_num

theorem note_name_440 : note_name 440 = "A4" := by
  rw [note_name, nearest_midi_440]
  rfl

theorem target_freq_440 : target_freq 440 = 440 := by
  rw [target_freq, nearest_midi_440]
  rw [show (((69 : ℤ) : ℝ) - 69) / 12 = 0 from by push_cast; ring, Real.rpow_zero]
  norm_num

/-- The frequency a quarter-tone below A4: its fractional MIDI number is
exactly 68.5, a rounding tie. -/
theorem midi_num_low_half : midi_num (440 * (2 : ℝ) ^ (-(1 : ℝ) / 24)) = (68 : ℝ) + 1 / 2 := by
  rw [midi_num_rpow]
  ring

/-- At the 68.5 tie, Python `round` goes to the even integer 68 (the lower
note), not 69. -/
theorem nearest_midi_low_half : nearest_midi (440 * (2 : ℝ) ^ (-(1 : ℝ) / 24)) = 68 := by
  rw [nearest_midi, midi_num_low_half]
  rw [show (68 : ℝ) + 1 / 2 = ((68 : ℤ) : ℝ) + 1 / 2 from by norm_num]
  rw [pyRound_int_add_half]
  decide

/-- The frequency a quarter-tone above A4: fractional MIDI number exactly 69.5. -/
theorem midi_num_high_half : midi_num (440 * (2 : ℝ) ^ ((1 : ℝ) / 24)) = (69 : ℝ) + 1 / 2 := by
  rw [midi_num_rpow]
  ring

/-- At the 69.5 tie, Python `round` goes to the even integer 70 (the higher
note). -/
theorem nearest_midi_high_half : nearest_midi (440 * (2 : ℝ) ^ ((1 : ℝ) / 24)) = 70 := by
  rw [nearest_midi, midi_num_high_half]
  rw [show (69 : ℝ) + 1 / 2 = ((69 : ℤ) : ℝ) + 1 / 2 from by norm_num]
  rw [pyRound_int_add_half]
  decide

/-! ## Claim theorems -/

/-- C1: for every audio buffer and sample rate (and any series the estimator
returns for them), `detect_pitch` returns `None` exactly when the per-frame f0
series contains no defined (non-NaN) estimate after filtering, and otherwise
returns the median of the defined estimates. -/
theorem C1_median_reduction (yin : List ℚ → ℕ → PyResult (List (Option ℚ)))
    (audio : List ℚ) (sr : ℕ) (s : List (Option ℚ))
    (hret : yin audio sr = .returned s) :
    (detect_pitch_call yin audio sr = .returned none ↔ s.filterMap id = []) ∧
    (s.filterMap id ≠ [] →
      detect_pitch_call yin audio sr =
        .returned (some (np_median (s.filterMap id)))) := by
  simp only [detect_pitch_call, hret, detect_pitch]
  by_cases hemp : (s.filterMap id).length = 0
  · rw [if_pos hemp]
    rw [List.length_eq_zero] at hemp
    exact ⟨⟨fun _ => hemp, fun _ => rfl⟩, fun hne => absurd hemp hne⟩
  · rw [if_neg hemp]
    refine ⟨⟨fun hcontra => ?_, fun hnil => ?_⟩, fun _ => rfl⟩
    · simp at hcontra
    · exact absurd (by rw [hnil]; rfl) hemp

/-- C1 witness: a concrete series `[3, NaN, 1, 2]` has defined estimates
`[3, 1, 2]` with median `2`. -/
theorem C1_median_reduction_witness :
    yin_const [0] 44100 = PyResult.returned [some 3, none, some 1, some 2] ∧
    ([some 3, none, some 1, some 2] : List (Option ℚ)).filterMap id ≠ [] ∧
    detect_pitch_call yin_const [0] 44100 = PyResult.returned (some 2) := by
  refine ⟨rfl, by decide, ?_⟩
  have h := (C1_median_reduction yin_const [0] 44100
    [some 3, none, some 1, some 2] rfl).2 (by decide)
  rw [h]
  decide

/-- C2: any `freq ≤ 0` maps to no note: `hz_to_note` returns `none` rather
than raising. -/
theorem C2_nonpositive_freq_no_note (freq : ℝ) (h : freq ≤ 0) :
    hz_to_note freq = none := by
  rw [hz_to_note, if_pos h]

/-- C2 witness at `freq = 0`. -/
theorem C2_nonpositive_freq_no_note_witness :
    (0 : ℝ) ≤ 0 ∧ hz_to_note 0 = none :=
  ⟨le_refl 0, C2_nonpositive_freq_no_note 0 (le_refl 0)⟩

/-- C3 counterexample: at `freq = 440·2^(−1/24)` the fractional MIDI number is
exactly 68.5.  Python's `round` (half-to-even) yields 68, the integer nearer
to zero and the lower note, whereas round-half-away-from-zero yields 69, so
the code's `nearest_midi` differs from the claimed rounding mode. -/
theorem C3_round_counterexample :
    nearest_midi (440 * (2 : ℝ) ^ (-(1 : ℝ) / 24)) = 68 ∧
    spec_round_half_away (midi_num (440 * (2 : ℝ) ^ (-(1 : ℝ) / 24))) = 69 ∧
    nearest_midi (440 * (2 : ℝ) ^ (-(1 : ℝ) / 24)) ≠
      spec_round_half_away (midi_num (440 * (2 : ℝ) ^ (-(1 : ℝ) / 24))) := by
  have h1 : nearest_midi (440 * (2 : ℝ) ^ (-(1 : ℝ) / 24)) = 68 := nearest_midi_low_half
  have h2 : spec_round_half_away (midi_num (440 * (2 : ℝ) ^ (-(1 : ℝ) / 24))) = 69 := by
    rw [midi_num_low_half, spec_round_half_away, if_pos (by norm_num)]
    rw [show (68 : ℝ) + 1 / 2 + 1 / 2 = ((69 : ℤ) : ℝ) from by norm_num]
    exact Int.floor_intCast 69
  exact ⟨h1, h2, by rw [h1, h2]; decide⟩

/-- C3 amended: `nearest_midi` is the round-half-to-even of the fractional
MIDI number: it is within 1/2 of it, strictly within except at an exact
half-integer, and at an exact half-integer the even neighbouring integer is
chosen (not the one further from zero). -/
theorem C3_amended_round_half_even (freq : ℝ) (h : 0 < freq) :
    |midi_num freq - (nearest_midi freq : ℝ)| ≤ 1 / 2 ∧
    (Int.fract (midi_num freq) ≠ 1 / 2 →
      |midi_num freq - (nearest_midi freq : ℝ)| < 1 / 2) ∧
    (Int.fract (midi_num freq) = 1 / 2 → nearest_midi freq % 2 = 0) :=
  ⟨abs_sub_pyRound (midi_num freq),
   fun hf => abs_sub_pyRound_lt (midi_num freq) hf,
   fun hf => (pyRound_fract_half (midi_num freq) hf).1⟩

/-- C3 amended witness at `freq = 440`. -/
theorem C3_amended_round_half_even_witness :
    0 < (440 : ℝ) ∧
    (|midi_num 440 - (nearest_midi 440 : ℝ)| ≤ 1 / 2 ∧
     (Int.fract (midi_num 440) ≠ 1 / 2 →
       |midi_num 440 - (nearest_midi 440 : ℝ)| < 1 / 2) ∧
     (Int.fract (midi_num 440) = 1 / 2 → nearest_midi 440 % 2 = 0)) :=
  ⟨by norm_num, C3_amended_round_half_even 440 (by norm_num)⟩

/-- C4 counterexample: at `freq = 440·2^(1/24)` (exactly halfway between A4
and A#4 in log-frequency space) the fractional MIDI number is 69.5, the code
rounds to the even integer 70, and `cents_off` is exactly −50, which is
outside the claimed half-open interval (−50, +50]. -/
theorem C4_cents_interval_counterexample :
    cents_off (440 * (2 : ℝ) ^ ((1 : ℝ) / 24)) = -50 ∧
    ¬(-50 < cents_off (440 * (2 : ℝ) ^ ((1 : ℝ) / 24)) ∧
        cents_off (440 * (2 : ℝ) ^ ((1 : ℝ) / 24)) ≤ 50) := by
  have hc : cents_off (440 * (2 : ℝ) ^ ((1 : ℝ) / 24)) = -50 := by
    rw [cents_off, midi_num_high_half, nearest_midi_high_half]
    push_cast
    ring
  refine ⟨hc, fun hcontra => ?_⟩
  rw [hc] at hcontra
  exact absurd hcontra.1 (by norm_num)

/-- C4 amended: `cents_off` equals `(midi − nearest_midi) · 100` with no
clamping, lies in the closed interval [−50, +50], and a frequency exactly
halfway between two notes in log-frequency space maps to cents of magnitude
exactly 50 (the sign depending on which neighbour is even). -/
theorem C4_amended_cents_range (freq : ℝ) (h : 0 < freq) :
    cents_off freq = (midi_num freq - (nearest_midi freq : ℝ)) * 100 ∧
    -50 ≤ cents_off freq ∧ cents_off freq ≤ 50 ∧
    (Int.fract (midi_num freq) = 1 / 2 → |cents_off freq| = 50) := by
  have hb : |midi_num freq - (nearest_midi freq : ℝ)| ≤ 1 / 2 :=
    abs_sub_pyRound (midi_num freq)
  rw [abs_le] at hb
  refine ⟨rfl, ?_, ?_, ?_⟩
  · rw [cents_off]
    linarith [hb.1]
  · rw [cents_off]
    linarith [hb.2]
  · intro hf
    have he : |midi_num freq - (nearest_midi freq : ℝ)| = 1 / 2 :=
      (pyRound_fract_half (midi_num freq) hf).2
    rw [cents_off, abs_mul]
    rw [he]
    norm_num

/-- C4 amended witness at `freq = 440`. -/
theorem C4_amended_cents_range_witness :
    0 < (440 : ℝ) ∧
    (cents_off 440 = (midi_num 440 - (nearest_midi 440 : ℝ)) * 100 ∧
     -50 ≤ cents_off 440 ∧ cents_off 440 ≤ 50 ∧
     (Int.fract (midi_num 440) = 1 / 2 → |cents_off 440| = 50)) :=
  ⟨by norm_num, C4_amended_cents_range 440 (by norm_num)⟩

/-- C5: for positive frequency, the note name returned by `hz_to_note` is the
12-entry pitch-class table indexed by `nearest_midi mod 12` (floor modulus)
concatenated with the octave `nearest_midi div 12 − 1`; in particular MIDI
note 69 gives the string "A4". -/
theorem C5_note_name_table (freq : ℝ) (h : 0 < freq) :
    hz_to_note freq =
      some (note_names.getD (Int.toNat (Int.emod (nearest_midi freq) 12)) "" ++
          toString (Int.ediv (nearest_midi freq) 12 - 1),
        cents_off freq, target_freq freq) ∧
    (nearest_midi freq = 69 → note_name freq = "A4") := by
  constructor
  · rw [hz_to_note_pos freq h, note_name]
  · intro h69
    rw [note_name, h69]
    rfl

/-- C5 witness at `freq = 440` (whose nearest MIDI note is 69). -/
theorem C5_note_name_table_witness :
    0 < (440 : ℝ) ∧
    (hz_to_note 440 =
      some (note_names.getD (Int.toNat (Int.emod (nearest_midi 440) 12)) "" ++
          toString (Int.ediv (nearest_midi 440) 12 - 1),
        cents_off 440, target_freq 440) ∧
     (nearest_midi 440 = 69 → note_name 440 = "A4")) :=
  ⟨by norm_num, C5_note_name_table 440 (by norm_num)⟩

/-- C6: the target frequency is `440·2^((nearest_midi − 69)/12)`, the exact
equal-tempered frequency of the nearest note, and `hz_to_note 440` returns
exactly ("A4", 0, 440). -/
theorem C6_target_freq_formula :
    hz_to_note 440 = some ("A4", 0, 440) ∧
    ∀ freq : ℝ, 0 < freq →
      target_freq freq = 440.0 * (2 : ℝ) ^ (((nearest_midi freq : ℝ) - 69) / 12) := by
  constructor
  · rw [hz_to_note_pos 440 (by norm_num), note_name_440, cents_off_440, target_freq_440]
  · intro f _
    rfl

/-- C6 witness: the formula instantiated at `freq = 880`. -/
theorem C6_target_freq_formula_witness :
    0 < (880 : ℝ) ∧
    target_freq 880 = 440.0 * (2 : ℝ) ^ (((nearest_midi 880 : ℝ) - 69) / 12) :=
  ⟨by norm_num, C6_target_freq_formula.2 880 (by norm_num)⟩

/-- C7 counterexample: on the malformed input of an empty buffer, the call
reports no precondition violation at all — the default-configured estimator
pads the buffer to one all-zero frame and returns the spurious defined
estimate 2100 Hz, and `detect_pitch`, which validates nothing, silently
returns that bogus frequency as an ordinary pitch result instead of an
explicit error result. -/
theorem C7_precondition_counterexample :
    detect_pitch_call yin_on_empty [] 44100 = PyResult.returned (some 2100) := rfl

/-- C7 amended: `detect_pitch` performs no precondition validation and has no
error-result channel: a malformed input is never reported — whenever the
estimator returns a series (as the default-configured librosa does even on an
empty buffer) the call returns an ordinary result (a frequency or `None`),
never an error; and `detect_pitch` adds no handling of its own, so any
exception the estimator did raise would propagate uncaught. -/
theorem C7_amended_no_validation (yin : List ℚ → ℕ → PyResult (List (Option ℚ)))
    (audio : List ℚ) (sr : ℕ) :
    (∀ m, yin audio sr = .raised m →
      detect_pitch_call yin audio sr = .raised m) ∧
    (∀ s, yin audio sr = .returned s →
      detect_pitch_call yin audio sr = .returned (detect_pitch s)) := by
  constructor
  · intro m hm
    simp only [detect_pitch_call, hm]
  · intro s hs
    simp only [detect_pitch_call, hs]

/-- C7 amended witness: on the empty buffer the estimator's spurious
one-frame series passes through the reduction unreported. -/
theorem C7_amended_no_validation_witness :
    yin_on_empty ([] : List ℚ) 44100 = PyResult.returned [some 2100] ∧
    detect_pitch_call yin_on_empty [] 44100 =
      PyResult.returned (detect_pitch [some 2100]) :=
  ⟨rfl, (C7_amended_no_validation yin_on_empty [] 44100).2 [some 2100] rfl⟩

/-- C8: within the open semitone band around note `N` — frequencies strictly
between the target frequency of `N` lowered and raised by half a semitone in
log-frequency space — the nearest MIDI note is constantly `N` and `cents_off`
is strictly increasing in the frequency. -/
theorem C8_cents_monotone_in_band (N : ℤ) (f1 f2 : ℝ)
    (h1 : 440 * (2 : ℝ) ^ (((N : ℝ) - 69 - 1 / 2) / 12) < f1)
    (h12 : f1 < f2)
    (h2 : f2 < 440 * (2 : ℝ) ^ (((N : ℝ) - 69 + 1 / 2) / 12)) :
    nearest_midi f1 = N ∧ nearest_midi f2 = N ∧ cents_off f1 < cents_off f2 := by
  have hlo : 0 < 440 * (2 : ℝ) ^ (((N : ℝ) - 69 - 1 / 2) / 12) := rpow_freq_pos _
  have hf1 : 0 < f1 := lt_trans hlo h1
  have hf2 : 0 < f2 := lt_trans hf1 h12
  have hm1lo : midi_num (440 * (2 : ℝ) ^ (((N : ℝ) - 69 - 1 / 2) / 12)) = (N : ℝ) - 1 / 2 := by
    rw [midi_num_rpow]
    ring
  have hm2hi : midi_num (440 * (2 : ℝ) ^ (((N : ℝ) - 69 + 1 / 2) / 12)) = (N : ℝ) + 1 / 2 := by
    rw [midi_num_rpow]
    ring
  have ha : (N : ℝ) - 1 / 2 < midi_num f1 := by
    rw [← hm1lo]
    exact midi_num_lt_midi_num _ _ hlo h1
  have hab : midi_num f1 < midi_num f2 := midi_num_lt_midi_num _ _ hf1 h12
  have hc : midi_num f2 < (N : ℝ) + 1 / 2 := by
    rw [← hm2hi]
    exact midi_num_lt_midi_num _ _ hf2 h2
  have hn1 : nearest_midi f1 = N := pyRound_eq_of_lt N _ ha (lt_trans hab hc)
  have hn2 : nearest_midi f2 = N := pyRound_eq_of_lt N _ (lt_trans ha hab) hc
  refine ⟨hn1, hn2, ?_⟩
  rw [cents_off, cents_off, hn1, hn2]
  linarith

/-- C8 witness: around A4 (`N = 69`), the band endpoints are `440·2^(∓1/24)`
and the frequencies `440·2^(∓1/48)` lie strictly inside the band. -/
theorem C8_cents_monotone_in_band_witness :
    (440 * (2 : ℝ) ^ ((((69 : ℤ) : ℝ) - 69 - 1 / 2) / 12) <
        440 * (2 : ℝ) ^ (-(1 : ℝ) / 48)) ∧
    (440 * (2 : ℝ) ^ (-(1 : ℝ) / 48) < 440 * (2 : ℝ) ^ ((1 : ℝ) / 48)) ∧
    (440 * (2 : ℝ) ^ ((1 : ℝ) / 48) <
        440 * (2 : ℝ) ^ ((((69 : ℤ) : ℝ) - 69 + 1 / 2) / 12)) ∧
    (nearest_midi (440 * (2 : ℝ) ^ (-(1 : ℝ) / 48)) = 69 ∧
     nearest_midi (440 * (2 : ℝ) ^ ((1 : ℝ) / 48)) = 69 ∧
     cents_off (440 * (2 : ℝ) ^ (-(1 : ℝ) / 48)) <
       cents_off (440 * (2 : ℝ) ^ ((1 : ℝ) / 48))) := by
  have e1 : ((((69 : ℤ) : ℝ) - 69 - 1 / 2) / 12 : ℝ) = -(1 : ℝ) / 24 := by
    push_cast
    ring
  have e2 : ((((69 : ℤ) : ℝ) - 69 + 1 / 2) / 12 : ℝ) = (1 : ℝ) / 24 := by
    push_cast
    ring
  have h1 : 440 * (2 : ℝ) ^ ((((69 : ℤ) : ℝ) - 69 - 1 / 2) / 12) <
      440 * (2 : ℝ) ^ (-(1 : ℝ) / 48) := by
    rw [e1]
    have hpow : (2 : ℝ) ^ (-(1 : ℝ) / 24) < (2 : ℝ) ^ (-(1 : ℝ) / 48) := by
      rw [Real.rpow_lt_rpow_left_iff (by norm_num)]
      norm_num
    linarith
  have h12 : 440 * (2 : ℝ) ^ (-(1 : ℝ) / 48) < 440 * (2 : ℝ) ^ ((1 : ℝ) / 48) := by
    have hpow : (2 : ℝ) ^ (-(1 : ℝ) / 48) < (2 : ℝ) ^ ((1 : ℝ) / 48) := by
      rw [Real.rpow_lt_rpow_left_iff (by norm_num)]
      norm_num
    linarith
  have h2 : 440 * (2 : ℝ) ^ ((1 : ℝ) / 48) <
      440 * (2 : ℝ) ^ ((((69 : ℤ) : ℝ) - 69 + 1 / 2) / 12) := by
    rw [e2]
    have hpow : (2 : ℝ) ^ ((1 : ℝ) / 48) < (2 : ℝ) ^ ((1 : ℝ) / 24) := by
      rw [Real.rpow_lt_rpow_left_iff (by norm_num)]
      norm_num
    linarith
  exact ⟨h1, h12, h2, C8_cents_monotone_in_band 69 _ _ h1 h12 h2⟩

/-- C9: for positive frequency, `hz_to_note` returns a defined result and the
pitch-class table index `nearest_midi mod 12` is always within the bounds of
the 12-entry list (also for negative `nearest_midi`, since Python's `%` is a
floor modulus). -/
theorem C9_total_index_in_bounds (freq : ℝ) (h : 0 < freq) :
    (hz_to_note freq).isSome = true ∧
    Int.toNat (Int.emod (nearest_midi freq) 12) < note_names.length := by
  constructor
  · rw [hz_to_note_pos freq h]
    rfl
  · have h1 : 0 ≤ Int.emod (nearest_midi freq) 12 := Int.emod_nonneg _ (by norm_num)
    have h2 : Int.emod (nearest_midi freq) 12 < 12 := Int.emod_lt_of_pos _ (by norm_num)
    have hlen : note_names.length = 12 := rfl
    rw [hlen]
    omega

/-- C9 witness at a very low frequency `440·2^(−10)` (below the piano range),
where `nearest_midi` is negative. -/
theorem C9_total_index_in_bounds_witness :
    0 < 440 * (2 : ℝ) ^ (-(10 : ℝ)) ∧
    ((hz_to_note (440 * (2 : ℝ) ^ (-(10 : ℝ)))).isSome = true ∧
     Int.toNat (Int.emod (nearest_midi (440 * (2 : ℝ) ^ (-(10 : ℝ)))) 12) <
       note_names.length) :=
  ⟨by positivity, C9_total_index_in_bounds _ (by positivity)⟩

/-- C10: round-trip identity in exact real arithmetic — applying the cents
deviation to the target frequency recovers the input frequency:
`target_freq · 2^(cents_off/1200) = freq`. -/
theorem C10_round_trip (freq : ℝ) (h : 0 < freq) :
    target_freq freq * (2 : ℝ) ^ (cents_off freq / 1200) = freq := by
  rw [target_freq, cents_off, mul_assoc]
  rw [← Real.rpow_add (by norm_num : (0 : ℝ) < 2)]
  have he : ((nearest_midi freq : ℝ) - 69) / 12 +
      (midi_num freq - (nearest_midi freq : ℝ)) * 100 / 1200 =
      Real.logb 2 (freq / 440.0) := by
    rw [midi_num]
    ring
  rw [he, Real.rpow_logb (by norm_num) (by norm_num)
    (div_pos h (by norm_num : (0 : ℝ) < 440.0))]
  rw [show (440.0 : ℝ) = 440 from by norm_num]
  field_simp

/-- C10 witness at `freq = 440`. -/
theorem C10_round_trip_witness :
    0 < (440 : ℝ) ∧ target_freq 440 * (2 : ℝ) ^ (cents_off 440 / 1200) = 440 :=
  ⟨by norm_num, C10_round_trip 440 (by norm_num)⟩

end TuneTrainer
